import Mathlib

/-!
Shallow embedding of the `quagga-answer-monitor` content script
(`QuaggaMonitor` in the content script source) and the pieces of its
surrounding engine that the verified claims are about.

Strings are modelled as `List Char`; the JavaScript string operations used
by the code (`trim`, `toLowerCase`, `includes`, the `rgb(\d+,\s*\d+,\s*\d+)`
regular expression and `Array.prototype.find`) are given explicit executable
models below.  DOM state is modelled as the data the code reads from it:
a flag for the `.ui-empty-state` marker, an optional list of row elements
for the `._rights-table_1treo_151` container, and per-row name text /
computed background color.  Exceptions thrown by DOM APIs — which the code
catches — are modelled by explicit flags (`topLevelThrows` for a failure of
the initial `document.querySelector` calls, `throwsOnProcess` for a failure
while processing one row), so that the catch-and-continue behaviour of the
code becomes a total function.
-/

set_option maxRecDepth 4000

namespace QuaggaModel

/-- Characters treated as whitespace by the JavaScript runtime; used to model
both `String.prototype.trim` and the regex class of whitespace characters. -/
def isSpaceChar (c : Char) : Bool :=
  c == ' ' || c == '\t' || c == '\n' || c == '\r' || c == '\x0b' || c == '\x0c' ||
  c == '\u00A0' || c == '\u1680' || (0x2000 ≤ c.toNat && c.toNat ≤ 0x200A) ||
  c == '\u2028' || c == '\u2029' || c == '\u202F' || c == '\u205F' ||
  c == '\u3000' || c == '\uFEFF'

/-- Model of JavaScript `String.prototype.trim`. -/
def trimChars (l : List Char) : List Char :=
  ((l.dropWhile isSpaceChar).reverse.dropWhile isSpaceChar).reverse

/-- Model of JavaScript `String.prototype.toLowerCase` (ASCII case folding;
all names occurring in the claims are ASCII or caseless). -/
def lowerChars (l : List Char) : List Char :=
  l.map Char.toLower

/-- Does the second list start with the first list.  Helper for
`strIncludes`. -/
def startsWithB : List Char → List Char → Bool
  | [], _ => true
  | _ :: _, [] => false
  | a :: as, b :: bs => a == b && startsWithB as bs

/-- Model of JavaScript `String.prototype.includes`: `strIncludes s needle`
is true iff `needle` occurs contiguously inside `s`.  As in JavaScript, the
empty needle occurs in every string. -/
def strIncludes : List Char → List Char → Bool
  | [], needle => startsWithB needle []
  | c :: rest, needle => startsWithB needle (c :: rest) || strIncludes rest needle

/-- The numeric value of a non-empty list of decimal digits, as computed by
JavaScript `Number` on the captured digit group. -/
def parseNatDigits (l : List Char) : Nat :=
  l.foldl (fun acc c => acc * 10 + (c.toNat - 48)) 0

/-- One attempt of the regular expression `rgb\((\d+),\s*(\d+),\s*(\d+)\)` at
the start of `s`.  The regex is deterministic here: `\d+` is maximal-munch
(a shorter digit run would leave a digit where `,` is required) and so is
`\s*` (a shorter space run would leave a space where `\d` is required). -/
def matchRgbAt (s : List Char) : Option (Nat × Nat × Nat) :=
  match s with
  | 'r' :: 'g' :: 'b' :: '(' :: rest =>
    let d1 := rest.takeWhile Char.isDigit
    let r1 := rest.dropWhile Char.isDigit
    if d1.isEmpty then none else
    match r1 with
    | ',' :: r2 =>
      let r2s := r2.dropWhile isSpaceChar
      let d2 := r2s.takeWhile Char.isDigit
      let r3 := r2s.dropWhile Char.isDigit
      if d2.isEmpty then none else
      match r3 with
      | ',' :: r4 =>
        let r4s := r4.dropWhile isSpaceChar
        let d3 := r4s.takeWhile Char.isDigit
        let r5 := r4s.dropWhile Char.isDigit
        if d3.isEmpty then none else
        match r5 with
        | ')' :: _ => some (parseNatDigits d1, parseNatDigits d2, parseNatDigits d3)
        | _ => none
      | _ => none
    | _ => none
  | _ => none

/-- Model of `backgroundColor.match(/rgb\((\d+),\s*(\d+),\s*(\d+)\)/)`:
the leftmost position at which the pattern matches, returning the three
captured channel values. -/
def findRgbMatch : List Char → Option (Nat × Nat × Nat)
  | [] => none
  | c :: rest =>
    match matchRgbAt (c :: rest) with
    | some v => some v
    | none => findRgbMatch rest

/-- The string literal `white`. -/
def whiteLiteral : List Char := "white".data

/-- The string literal `rgb(255, 255, 255)`. -/
def rgbWhiteLiteral : List Char := "rgb(255, 255, 255)".data

/-- `QuaggaMonitor.isWhiteBackground`: if the rgb regular expression matches
somewhere in the input, the answer is decided by the first match's channels
being all `≥ 240`; otherwise the input must be exactly `white` or exactly
`rgb(255, 255, 255)`. -/
def isWhiteBackground (backgroundColor : List Char) : Bool :=
  match findRgbMatch backgroundColor with
  | some (r, g, b) => 240 ≤ r && 240 ≤ g && 240 ≤ b
  | none => backgroundColor == whiteLiteral || backgroundColor == rgbWhiteLiteral

/-- `WatchedName` from the repository's type definitions. -/
structure WatchedName where
  id : List Char
  name : List Char
  exactMatch : Bool
  enabled : Bool
deriving Repr, DecidableEq

/-- `AnswerRightData` from the repository's type definitions. -/
structure AnswerRightData where
  name : List Char
  hasRight : Bool
  timestamp : Nat
deriving Repr, DecidableEq

/-- `AnswerStatus` from the repository's type definitions. -/
structure AnswerStatus where
  watchedNameId : List Char
  matchedName : List Char
  hasRight : Bool
  lastUpdated : Nat
  found : Bool
deriving Repr, DecidableEq

/-- One `._right_1treo_151` row element as the code reads it:
the text content of its `._name_1treo_160` child (if that child exists), the
computed background color, and a flag modelling a DOM exception thrown while
this row is processed (caught per-row by the code). -/
structure DomRow where
  nameText : Option (List Char)
  backgroundColor : List Char
  throwsOnProcess : Bool
deriving Repr, DecidableEq

/-- The DOM state the extraction reads: presence of the `.ui-empty-state`
marker, the rows of the `._rights-table_1treo_151` container (`none` when the
container is absent) and a flag modelling a top-level DOM API exception
(caught by the outer try of `extractAnswerRights`). -/
structure DomState where
  hasEmptyState : Bool
  rightsTable : Option (List DomRow)
  topLevelThrows : Bool
deriving Repr, DecidableEq

/-- `QuaggaMonitor.checkNameMatch`. -/
def checkNameMatch (extractedName : List Char) (watchedName : WatchedName) : Bool :=
  if !watchedName.enabled then
    false
  else
    let targetName := trimChars watchedName.name
    let sourceName := trimChars extractedName
    if watchedName.exactMatch then
      sourceName == targetName
    else
      strIncludes (lowerChars sourceName) (lowerChars targetName)

/-- `QuaggaMonitor.extractSingleElement`: `none` when the name child is
absent or its text is empty after trimming, the extracted entry otherwise. -/
def extractSingleElement (rightElement : DomRow) (timestamp : Nat) : Option AnswerRightData :=
  match rightElement.nameText with
  | none => none
  | some t =>
    let name := trimChars t
    if name.isEmpty then none
    else some ⟨name, isWhiteBackground rightElement.backgroundColor, timestamp⟩

/-- `QuaggaMonitor.extractWithNormalSearch`: process every row, skipping a
row whose processing throws (the per-row try/catch) and rows for which
`extractSingleElement` yields nothing. -/
def extractWithNormalSearch (rightElements : List DomRow) (timestamp : Nat) : List AnswerRightData :=
  rightElements.filterMap fun rightElement =>
    if rightElement.throwsOnProcess then none
    else extractSingleElement rightElement timestamp

/-- The `Set` built by `extractWithEfficientSearch`: for each enabled rule,
the raw name when the rule is exact-match, the lowercased name otherwise. -/
def buildExactMatchSet (watchedNames : List WatchedName) : List (List Char) :=
  (watchedNames.filter fun wn => wn.enabled).map fun wn =>
    if wn.exactMatch then wn.name else lowerChars wn.name

/-- The array of lowercased names of enabled substring-match rules built by
`extractWithEfficientSearch`. -/
def buildSubstrMatchNames (watchedNames : List WatchedName) : List (List Char) :=
  ((watchedNames.filter fun wn => wn.enabled && !wn.exactMatch).map fun wn =>
    lowerChars wn.name)

/-- `QuaggaMonitor.isNameMatchedEfficient`. -/
def isNameMatchedEfficient (name : List Char) (exactMatchSet : List (List Char))
    (substrMatchNames : List (List Char)) : Bool :=
  exactMatchSet.contains name ||
  exactMatchSet.contains (lowerChars name) ||
  substrMatchNames.any fun p => strIncludes (lowerChars name) p

/-- `QuaggaMonitor.extractWithEfficientSearch`: skip everything when no watch
rules are configured; otherwise pre-filter each row by its (trimmed) name
against the lookup structures before extracting it.  A row whose processing
throws is skipped (the per-iteration try/catch). -/
def extractWithEfficientSearch (watchedNames : List WatchedName)
    (rightElements : List DomRow) (timestamp : Nat) : List AnswerRightData :=
  if watchedNames.length = 0 then []
  else
    let exactMatchSet := buildExactMatchSet watchedNames
    let substrMatchNames := buildSubstrMatchNames watchedNames
    rightElements.filterMap fun rightElement =>
      if rightElement.throwsOnProcess then none
      else
        match rightElement.nameText with
        | none => none
        | some t =>
          let name := trimChars t
          if name.isEmpty then none
          else if isNameMatchedEfficient name exactMatchSet substrMatchNames then
            extractSingleElement rightElement timestamp
          else none

/-- `QuaggaMonitor.EFFICIENT_SEARCH_THRESHOLD`. -/
def EFFICIENT_SEARCH_THRESHOLD : Nat := 50

/-- `QuaggaMonitor.MAX_SCAN_HISTORY`. -/
def MAX_SCAN_HISTORY : Nat := 10

/-- The mutable cache fields of `QuaggaMonitor` relevant to memory use:
`lastScanResults` and `scanCount`. -/
structure MonitorCache where
  lastScanResults : List AnswerRightData
  scanCount : Nat
deriving Repr, DecidableEq

/-- `QuaggaMonitor.extractAnswerRights`: returns the extracted entries and
the updated cache.  When the top-level DOM query throws, the outer catch
reports the error and the (empty) partial result is returned with the cache
untouched; the empty-state and missing-table cases return early before the
cache update; otherwise the strategy is chosen by row count against
`EFFICIENT_SEARCH_THRESHOLD` and the cache receives a copy of the results. -/
def extractAnswerRights (watchedNames : List WatchedName) (dom : DomState)
    (timestamp : Nat) (cache : MonitorCache) : List AnswerRightData × MonitorCache :=
  if dom.topLevelThrows then ([], cache)
  else if dom.hasEmptyState then ([], cache)
  else
    match dom.rightsTable with
    | none => ([], cache)
    | some rightElements =>
      let results :=
        if EFFICIENT_SEARCH_THRESHOLD < rightElements.length then
          extractWithEfficientSearch watchedNames rightElements timestamp
        else
          extractWithNormalSearch rightElements timestamp
      (results, ⟨results, cache.scanCount + 1⟩)

/-- `QuaggaMonitor.performMemoryCleanup`: trim the cached results to the
most recent `MAX_SCAN_HISTORY` entries (`Array.prototype.slice(-10)`) and
reset the scan counter once it exceeds 10000. -/
def performMemoryCleanup (cache : MonitorCache) : MonitorCache :=
  let results :=
    if MAX_SCAN_HISTORY < cache.lastScanResults.length then
      cache.lastScanResults.drop (cache.lastScanResults.length - MAX_SCAN_HISTORY)
    else cache.lastScanResults
  let count := if 10000 < cache.scanCount then 0 else cache.scanCount
  ⟨results, count⟩

/-- `QuaggaMonitor.processExtractedData`: one `AnswerStatus` per enabled
rule, built from the first extracted entry that `checkNameMatch` accepts
(`Array.prototype.find`), with a single timestamp for the whole pass
(the code takes `Date.now()` once at the top; it is a parameter here). -/
def processExtractedData (watchedNames : List WatchedName)
    (extractedData : List AnswerRightData) (timestamp : Nat) : List AnswerStatus :=
  watchedNames.filterMap fun watchedName =>
    if !watchedName.enabled then none
    else
      match extractedData.find? (fun data => checkNameMatch data.name watchedName) with
      | some matchedData =>
        some ⟨watchedName.id, matchedData.name, matchedData.hasRight, timestamp, true⟩
      | none =>
        some ⟨watchedName.id, [], false, timestamp, false⟩

/-! ### Scan orchestration, error handling and emitted messages -/

/-- A message sent to the background script via `chrome.runtime.sendMessage`:
either the `STATUS_UPDATE` sent by `sendStatusUpdate` (with the statuses and
the `isActive` flag read at send time) or the `ERROR` message sent through
`handleError`/`sendErrorMessage`, identified by its category. -/
inductive Emitted where
  | statusUpdate (statuses : List AnswerStatus) (isActive : Bool) : Emitted
  | errorMessage (category : List Char) : Emitted
deriving Repr, DecidableEq

/-- The error category used by `extractAnswerRights` for a top-level DOM
extraction failure. -/
def domExtractionErrorCategory : List Char := "DOM抽出エラー".data

/-- The error category used by `extractWithNormalSearch` for a per-row
processing failure. -/
def domRowErrorCategory : List Char := "DOM処理エラー".data

/-- `QuaggaMonitor.isCriticalError`: the categories that pause monitoring. -/
def isCriticalError (category : List Char) : Bool :=
  ["初期化エラー".data, "ストレージエラー".data, "メッセージングエラー".data].contains category

/-- The effect of one `handleError(category, …)` call on the `isMonitoring`
flag: critical categories set it to false, others leave it unchanged. -/
def handleErrorMonitoring (category : List Char) (isMonitoring : Bool) : Bool :=
  if isCriticalError category then false else isMonitoring

/-- The categories of the `handleError` calls made during one run of
`extractAnswerRights`, in order: the top-level catch fires alone (the DOM
query throws before any row is visited); the empty-state and missing-table
paths report nothing; the normal strategy reports one per-row error for each
row whose processing throws; the efficient strategy's per-row catch only
logs to the console and calls no `handleError`. -/
def extractionErrorCategories (dom : DomState) : List (List Char) :=
  if dom.topLevelThrows then [domExtractionErrorCategory]
  else if dom.hasEmptyState then []
  else
    match dom.rightsTable with
    | none => []
    | some rightElements =>
      if EFFICIENT_SEARCH_THRESHOLD < rightElements.length then []
      else
        rightElements.filterMap fun rightElement =>
          if rightElement.throwsOnProcess then some domRowErrorCategory else none

/-- The fields of `QuaggaMonitor` that `performScan` reads and writes. -/
structure ScanState where
  isMonitoring : Bool
  cache : MonitorCache
deriving Repr, DecidableEq

/-- `QuaggaMonitor.performScan`, with its emitted messages made explicit:
does nothing when monitoring is off; otherwise extracts (which may fire
`handleError` calls internally), matches the extracted data and sends the
`STATUS_UPDATE`.  The error messages of the `handleError` calls precede the
status update, and the status update carries the `isMonitoring` flag as it
stands after those calls. -/
def performScan (watchedNames : List WatchedName) (dom : DomState) (timestamp : Nat)
    (st : ScanState) : ScanState × List Emitted :=
  if !st.isMonitoring then (st, [])
  else
    let extracted := extractAnswerRights watchedNames dom timestamp st.cache
    let cats := extractionErrorCategories dom
    let monitoringAfter := cats.foldl (fun m cat => handleErrorMonitoring cat m) st.isMonitoring
    let matchedResults := processExtractedData watchedNames extracted.1 timestamp
    (⟨monitoringAfter, extracted.2⟩,
      cats.map Emitted.errorMessage ++ [Emitted.statusUpdate matchedResults monitoringAfter])

/-! ### Debounce scheduler model

`startDOMObserver` installs a `MutationObserver` whose callback clears the
tracked `throttleTimer` (if any) with `clearTimeout` and arms a fresh
`setTimeout` of `THROTTLE_DELAY`.  The model keeps the multiset of timers
currently armed in the host environment (`armed`, as a list of ids), the id
the monitor tracks in `this.throttleTimer`, a fresh-id counter, and the
number of rescans performed.  Firing an armed timer runs
`handleDOMChangesOptimized` on the relevant batch its closure captured,
which performs exactly one rescan; the code never nulls `throttleTimer` on
fire, and `clearTimeout` of a dead id is a no-op (`List.erase` of an absent
element). -/

/-- State of the debounce scheduler model. -/
structure SchedState where
  armed : List Nat
  throttleTimer : Option Nat
  nextId : Nat
  scanCount : Nat
deriving Repr, DecidableEq

/-- `clearTimeout(this.throttleTimer)`: removes the tracked timer from the
armed timers when it is still armed, does nothing otherwise. -/
def clearTracked (armed : List Nat) : Option Nat → List Nat
  | some t => armed.erase t
  | none => armed

/-- The `MutationObserver` callback on a relevant mutation batch: clear the
tracked timer and arm a fresh debounce timer, tracking its id. -/
def onRelevantBatch (s : SchedState) : SchedState :=
  ⟨clearTracked s.armed s.throttleTimer ++ [s.nextId], some s.nextId, s.nextId + 1, s.scanCount⟩

/-- `n` consecutive relevant mutation batches. -/
def runBatches : Nat → SchedState → SchedState
  | 0, s => s
  | n + 1, s => runBatches n (onRelevantBatch s)

/-- The host environment fires armed timer `t`: its callback performs one
rescan (the batch it captured is relevant); firing a timer that is not armed
does nothing. -/
def onTimerFire (s : SchedState) (t : Nat) : SchedState :=
  if t ∈ s.armed then ⟨s.armed.erase t, s.throttleTimer, s.nextId, s.scanCount + 1⟩
  else s

/-- States of the scheduler model reachable by the code: either no timer is
armed, or exactly the tracked timer is armed. -/
def SchedInv (s : SchedState) : Prop :=
  s.armed = [] ∨ ∃ t, s.armed = [t] ∧ s.throttleTimer = some t

/-! ### Spec-side classifier, for comparison with `isWhiteBackground`

Modelled from the spec's words (claim C5), not from the source: the input
must as a whole parse as an `rgb(r,g,b)` textual form — digits, with or
without spacing after the commas — with all three channels at least 240, or
be exactly `white` or exactly `rgb(255, 255, 255)`. -/

/-- Whole-input parse of the `rgb(r,g,b)` textual form: succeeds only when
the entire input is `rgb(` digits `,` spaces digits `,` spaces digits `)`. -/
def parseRgbWhole (s : List Char) : Option (Nat × Nat × Nat) :=
  match s with
  | 'r' :: 'g' :: 'b' :: '(' :: rest =>
    let d1 := rest.takeWhile Char.isDigit
    let r1 := rest.dropWhile Char.isDigit
    if d1.isEmpty then none else
    match r1 with
    | ',' :: r2 =>
      let r2s := r2.dropWhile isSpaceChar
      let d2 := r2s.takeWhile Char.isDigit
      let r3 := r2s.dropWhile Char.isDigit
      if d2.isEmpty then none else
      match r3 with
      | ',' :: r4 =>
        let r4s := r4.dropWhile isSpaceChar
        let d3 := r4s.takeWhile Char.isDigit
        let r5 := r4s.dropWhile Char.isDigit
        if d3.isEmpty then none else
        match r5 with
        | [')'] => some (parseNatDigits d1, parseNatDigits d2, parseNatDigits d3)
        | _ => none
      | _ => none
    | _ => none
  | _ => none

/-- Modelled from the spec: the classifier contract of claim C5, stated over
the whole input. -/
def classifySpec (s : List Char) : Bool :=
  (match parseRgbWhole s with
   | some (r, g, b) => 240 ≤ r && 240 ≤ g && 240 ≤ b
   | none => false) ||
  s == whiteLiteral || s == rgbWhiteLiteral

/-! ### Helper lemmas -/

/-- Dropping a satisfying head segment twice is the same as dropping once:
a restatement of `List.dropWhile_idempotent` specialised to characters. -/
theorem dropWhile_space_idem (l : List Char) :
    List.dropWhile isSpaceChar (List.dropWhile isSpaceChar l) = List.dropWhile isSpaceChar l :=
  List.dropWhile_idempotent isSpaceChar l

/-- Every list is a prefix followed by its `dropWhile` remainder. -/
theorem exists_append_dropWhile (p : Char → Bool) (l : List Char) :
    ∃ pre, l = pre ++ l.dropWhile p := by
  induction l with
  | nil => exact ⟨[], rfl⟩
  | cons c t ih =>
    by_cases h : p c
    · obtain ⟨pre, hpre⟩ := ih
      exact ⟨c :: pre, by rw [List.dropWhile_cons, if_pos h]; simpa using hpre⟩
    · exact ⟨[], by rw [List.dropWhile_cons, if_neg h]; rfl⟩

/-- Trimming leaves a string whose first character is not a space. -/
theorem trim_dropWhile (l : List Char) :
    (trimChars l).dropWhile isSpaceChar = trimChars l := by
  cases htl : trimChars l with
  | nil => rfl
  | cons c t =>
    obtain ⟨pre, hpre⟩ := exists_append_dropWhile isSpaceChar (l.dropWhile isSpaceChar).reverse
    have hBrev : (trimChars l).reverse = ((l.dropWhile isSpaceChar).reverse).dropWhile isSpaceChar := by
      unfold trimChars
      rw [List.reverse_reverse]
    have hAexp : l.dropWhile isSpaceChar = trimChars l ++ pre.reverse := by
      have h2 : (l.dropWhile isSpaceChar).reverse = pre ++ (trimChars l).reverse := by
        rw [hBrev]; exact hpre
      calc l.dropWhile isSpaceChar
          = (l.dropWhile isSpaceChar).reverse.reverse := (List.reverse_reverse _).symm
        _ = (pre ++ (trimChars l).reverse).reverse := by rw [h2]
        _ = trimChars l ++ pre.reverse := by simp
    have hc : ¬ (isSpaceChar c = true) := by
      have hhd := List.head?_dropWhile_not isSpaceChar l
      rw [hAexp, htl] at hhd
      simpa using hhd
    rw [List.dropWhile_cons, if_neg hc]

/-- Trimming leaves a string whose last character is not a space. -/
theorem trim_reverse_dropWhile (l : List Char) :
    (trimChars l).reverse.dropWhile isSpaceChar = (trimChars l).reverse := by
  unfold trimChars
  rw [List.reverse_reverse]
  exact List.dropWhile_idempotent isSpaceChar _

/-- Idempotence of the JavaScript `trim` model. -/
theorem trim_idem (l : List Char) : trimChars (trimChars l) = trimChars l := by
  show (((trimChars l).dropWhile isSpaceChar).reverse.dropWhile isSpaceChar).reverse = trimChars l
  rw [trim_dropWhile, trim_reverse_dropWhile, List.reverse_reverse]

/-- Searching the empty needle always succeeds, as in JavaScript. -/
theorem strIncludes_nil (l : List Char) : strIncludes l [] = true := by
  cases l <;> simp [strIncludes, startsWithB]

/-- Filtering by a predicate that every hit of `p` satisfies does not change
the first hit of `p`. -/
theorem find?_filter_of_imp {α : Type} (p q : α → Bool) :
    ∀ l : List α, (∀ x ∈ l, p x = true → q x = true) →
      List.find? p (l.filter q) = List.find? p l := by
  intro l
  induction l with
  | nil => intro _; rfl
  | cons a t ih =>
    intro h
    by_cases hq : q a = true
    · rw [List.filter_cons_of_pos hq]
      by_cases hp : p a = true
      · rw [List.find?_cons_of_pos _ hp, List.find?_cons_of_pos _ hp]
      · rw [List.find?_cons_of_neg _ (by simpa using hp), List.find?_cons_of_neg _ (by simpa using hp)]
        exact ih fun x hx => h x (List.mem_cons_of_mem a hx)
    · have hp : p a = false := by
        cases hpa : p a
        · rfl
        · exact absurd (h a (List.mem_cons_self a t) hpa) hq
      rw [List.filter_cons_of_neg (by simpa using hq),
        List.find?_cons_of_neg _ (by simp [hp])]
      exact ih fun x hx => h x (List.mem_cons_of_mem a hx)

/-- The first hit of `p` in `pre ++ d :: post` is `d` when nothing in `pre`
satisfies `p` and `d` does. -/
theorem find?_append_cons {α : Type} (p : α → Bool) :
    ∀ pre : List α, ∀ (d : α) (post : List α), (∀ x ∈ pre, p x = false) → p d = true →
      List.find? p (pre ++ d :: post) = some d := by
  intro pre
  induction pre with
  | nil =>
    intro d post _ hd
    simpa using List.find?_cons_of_pos post hd
  | cons a t ih =>
    intro d post h hd
    have ha : p a = false := h a (List.mem_cons_self a t)
    rw [List.cons_append, List.find?_cons_of_neg _ (by simp [ha])]
    exact ih d post (fun x hx => h x (List.mem_cons_of_mem a hx)) hd

/-- With at least one configured rule, the efficient strategy returns
exactly the rows of the normal strategy whose names pass its pre-filter. -/
theorem efficient_eq_filter_normal (watchedNames : List WatchedName)
    (hne : ¬ watchedNames.length = 0) (rightElements : List DomRow) (timestamp : Nat) :
    extractWithEfficientSearch watchedNames rightElements timestamp =
      (extractWithNormalSearch rightElements timestamp).filter fun d =>
        isNameMatchedEfficient d.name (buildExactMatchSet watchedNames)
          (buildSubstrMatchNames watchedNames) := by
  induction rightElements with
  | nil => simp [extractWithEfficientSearch, extractWithNormalSearch, hne]
  | cons row rest ih =>
    obtain ⟨nt, bg, thr⟩ := row
    simp only [extractWithEfficientSearch, if_neg hne, extractWithNormalSearch,
      List.filterMap_cons] at ih ⊢
    cases thr with
    | true => simpa using ih
    | false =>
      cases nt with
      | none => simpa [extractSingleElement] using ih
      | some t =>
        by_cases hemp : (trimChars t).isEmpty
        · simpa [extractSingleElement, hemp] using ih
        · by_cases hm : isNameMatchedEfficient (trimChars t) (buildExactMatchSet watchedNames)
              (buildSubstrMatchNames watchedNames) = true
          · simpa [extractSingleElement, hemp, hm] using ih
          · simpa [extractSingleElement, hemp, hm] using ih

/-- Every name produced by the normal strategy is already trimmed. -/
theorem normal_names_trimmed (rightElements : List DomRow) (timestamp : Nat) :
    ∀ d ∈ extractWithNormalSearch rightElements timestamp, trimChars d.name = d.name := by
  intro d hd
  rw [extractWithNormalSearch, List.mem_filterMap] at hd
  obtain ⟨row, _, hrow⟩ := hd
  cases hthr : row.throwsOnProcess
  · simp only [hthr, Bool.false_eq_true, if_false, extractSingleElement] at hrow
    cases hnt : row.nameText with
    | none => simp [hnt] at hrow
    | some t =>
      simp only [hnt] at hrow
      by_cases hemp : (trimChars t).isEmpty
      · simp [hemp] at hrow
      · rw [if_neg hemp] at hrow
        cases hrow
        exact trim_idem t
  · simp [hthr] at hrow

/-- A trimmed name accepted by `checkNameMatch` for an enabled rule with a
trim-stable name passes the efficient pre-filter built from any rule list
containing that rule. -/
theorem check_implies_efficient {watchedNames : List WatchedName} {wn : WatchedName}
    (hmem : wn ∈ watchedNames) (hen : wn.enabled = true)
    (hstable : trimChars wn.name = wn.name) {nm : List Char} (hnm : trimChars nm = nm)
    (hmatch : checkNameMatch nm wn = true) :
    isNameMatchedEfficient nm (buildExactMatchSet watchedNames)
      (buildSubstrMatchNames watchedNames) = true := by
  rw [checkNameMatch, hen] at hmatch
  simp only [Bool.not_true, Bool.false_eq_true, if_false] at hmatch
  rw [isNameMatchedEfficient]
  simp only [Bool.or_eq_true]
  cases hex : wn.exactMatch
  · right
    rw [hex] at hmatch
    simp only [Bool.false_eq_true, if_false] at hmatch
    rw [hstable, hnm] at hmatch
    rw [List.any_eq_true]
    exact ⟨lowerChars wn.name,
      List.mem_map.mpr ⟨wn, List.mem_filter.mpr ⟨hmem, by simp [hen, hex]⟩, rfl⟩, hmatch⟩
  · left; left
    rw [hex] at hmatch
    simp only [if_true] at hmatch
    rw [hstable, hnm, beq_iff_eq] at hmatch
    have hmm : nm ∈ buildExactMatchSet watchedNames := by
      rw [buildExactMatchSet]
      exact List.mem_map.mpr ⟨wn, List.mem_filter.mpr ⟨hmem, hen⟩, by rw [if_pos hex, hmatch]⟩
    exact List.elem_iff.mpr hmm

/-- Restricting the extracted data to entries that every rule-accepted entry
satisfies does not change the matching outcome of any rule. -/
theorem processExtracted_filter (timestamp : Nat) (q : AnswerRightData → Bool)
    (data : List AnswerRightData) :
    ∀ rules : List WatchedName,
      (∀ wn ∈ rules, wn.enabled = true →
        ∀ d ∈ data, checkNameMatch d.name wn = true → q d = true) →
      processExtractedData rules (data.filter q) timestamp =
        processExtractedData rules data timestamp := by
  intro rules
  induction rules with
  | nil => intro _; rfl
  | cons wn rest ih =>
    intro h
    have hrest := ih fun w hw => h w (List.mem_cons_of_mem wn hw)
    simp only [processExtractedData] at hrest ⊢
    rw [List.filterMap_cons, List.filterMap_cons]
    cases hen : wn.enabled
    · simpa [hen] using hrest
    · have hfind : (data.filter q).find? (fun d => checkNameMatch d.name wn) =
          data.find? fun d => checkNameMatch d.name wn :=
        find?_filter_of_imp _ _ data fun d hd => h wn (List.mem_cons_self wn rest) hen d hd
      simp only [hen, Bool.not_true, Bool.false_eq_true, if_false, hfind]
      cases hf : data.find? (fun d => checkNameMatch d.name wn) with
      | none => simp only [hf]; rw [hrest]
      | some v => simp only [hf]; rw [hrest]

/-! ### Claim C1 -/

/-- Claim C1 fails as stated: for the enabled exact-match rule named
` Taro` (leading space) and a single row named `Taro`, the linear strategy
followed by matching reports a found record, while the indexed strategy —
whose lookup set is built from the untrimmed rule name — filters the row out
and reports not-found. -/
theorem claim_C1_counterexample :
    processExtractedData [(⟨"1".data, " Taro".data, true, true⟩ : WatchedName)]
        (extractWithNormalSearch [⟨some "Taro".data, "white".data, false⟩] 0) 0 ≠
      processExtractedData [(⟨"1".data, " Taro".data, true, true⟩ : WatchedName)]
        (extractWithEfficientSearch [(⟨"1".data, " Taro".data, true, true⟩ : WatchedName)]
          [⟨some "Taro".data, "white".data, false⟩] 0) 0 := by
  decide

/-- Claim C1 (amended): for every fixed DOM row list and every watch-rule
list in which each enabled rule's name carries no leading or trailing
whitespace (it equals its own trim), the linear extraction strategy and the
indexed extraction strategy followed by per-rule matching yield the same
status records for each enabled rule; they may differ only in which
unmatched rows were skipped internally. -/
theorem claim_C1 (watchedNames : List WatchedName) (rightElements : List DomRow)
    (timestamp : Nat)
    (hTrim : ∀ wn ∈ watchedNames, wn.enabled = true → trimChars wn.name = wn.name) :
    processExtractedData watchedNames (extractWithNormalSearch rightElements timestamp)
        timestamp =
      processExtractedData watchedNames
        (extractWithEfficientSearch watchedNames rightElements timestamp) timestamp := by
  by_cases hlen : watchedNames.length = 0
  · have hnil : watchedNames = [] := List.length_eq_zero.mp hlen
    subst hnil; rfl
  · rw [efficient_eq_filter_normal watchedNames hlen]
    exact (processExtracted_filter timestamp _ _ watchedNames fun wn hwn hen d hd hmatch =>
      check_implies_efficient hwn hen (hTrim wn hwn hen)
        (normal_names_trimmed rightElements timestamp d hd) hmatch).symm

/-- Witness for claim C1 at a concrete trim-stable rule list and row list. -/
theorem claim_C1_witness :
    trimChars "Taro".data = "Taro".data ∧
    processExtractedData [(⟨"1".data, "Taro".data, true, true⟩ : WatchedName)]
        (extractWithNormalSearch [⟨some " Taro ".data, "white".data, false⟩] 0) 0 =
      processExtractedData [(⟨"1".data, "Taro".data, true, true⟩ : WatchedName)]
        (extractWithEfficientSearch [(⟨"1".data, "Taro".data, true, true⟩ : WatchedName)]
          [⟨some " Taro ".data, "white".data, false⟩] 0) 0 :=
  ⟨by decide,
    claim_C1 [(⟨"1".data, "Taro".data, true, true⟩ : WatchedName)]
      [⟨some " Taro ".data, "white".data, false⟩] 0 (by decide)⟩

/-! ### Claim C2 -/

/-- Claim C2: the matching step produces exactly one record per enabled rule
in the rule list's relative order (so disabled rules produce none), every
record of one pass carries the same `lastUpdated` value, and an enabled rule
with no matching observed entry yields the record with `found` false and an
empty matched name. -/
theorem claim_C2 (watchedNames : List WatchedName) (extractedData : List AnswerRightData)
    (timestamp : Nat) :
    ((processExtractedData watchedNames extractedData timestamp).map
        (fun r => r.watchedNameId) =
      (watchedNames.filter fun wn => wn.enabled).map fun wn => wn.id) ∧
    (∀ r ∈ processExtractedData watchedNames extractedData timestamp,
      r.lastUpdated = timestamp) ∧
    (∀ wn ∈ watchedNames, wn.enabled = true →
      (∀ d ∈ extractedData, checkNameMatch d.name wn = false) →
      (⟨wn.id, [], false, timestamp, false⟩ : AnswerStatus) ∈
        processExtractedData watchedNames extractedData timestamp) := by
  refine ⟨?_, ?_, ?_⟩
  · induction watchedNames with
    | nil => rfl
    | cons wn rest ih =>
      simp only [processExtractedData, List.filterMap_cons, List.filter_cons] at ih ⊢
      cases hen : wn.enabled
      · simpa using ih
      · cases hf : extractedData.find? (fun d => checkNameMatch d.name wn) <;>
          simpa [hf] using ih
  · intro r hr
    rw [processExtractedData, List.mem_filterMap] at hr
    obtain ⟨wn, _, hwn⟩ := hr
    cases hen : wn.enabled
    · simp [hen] at hwn
    · simp only [hen, Bool.not_true, Bool.false_eq_true, if_false] at hwn
      cases hf : extractedData.find? (fun d => checkNameMatch d.name wn) <;>
        · rw [hf] at hwn
          cases hwn
          rfl
  · intro wn hwn hen hnone
    rw [processExtractedData, List.mem_filterMap]
    refine ⟨wn, hwn, ?_⟩
    have hf : extractedData.find? (fun d => checkNameMatch d.name wn) = none :=
      List.find?_eq_none.mpr fun d hd => by simp [hnone d hd]
    simp [hen, hf]

/-- Witness for claim C2: one enabled rule and no observed entries yield the
membership of the not-found record. -/
theorem claim_C2_witness :
    (⟨"1".data, "Taro".data, true, true⟩ : WatchedName) ∈
      [(⟨"1".data, "Taro".data, true, true⟩ : WatchedName)] ∧
    (⟨"1".data, [], false, 5, false⟩ : AnswerStatus) ∈
      processExtractedData [(⟨"1".data, "Taro".data, true, true⟩ : WatchedName)] [] 5 :=
  ⟨List.mem_singleton.mpr rfl,
    (claim_C2 [(⟨"1".data, "Taro".data, true, true⟩ : WatchedName)] [] 5).2.2 _
      (List.mem_singleton.mpr rfl) rfl (by decide)⟩

/-! ### Claim C4 -/

/-- Claim C4: for an enabled rule, when the observed entries split as
`pre ++ d :: post` with nothing in `pre` matching the rule and `d` matching
it, the record produced for that rule occurrence is built from `d` — its
matched name is `d`'s name, its right flag is `d`'s, and `found` is true —
so the first matching entry in document order wins. -/
theorem claim_C4 (rulesA : List WatchedName) (wn : WatchedName) (rulesB : List WatchedName)
    (pre : List AnswerRightData) (d : AnswerRightData) (post : List AnswerRightData)
    (timestamp : Nat) (hen : wn.enabled = true)
    (hpre : ∀ x ∈ pre, checkNameMatch x.name wn = false)
    (hd : checkNameMatch d.name wn = true) :
    processExtractedData (rulesA ++ wn :: rulesB) (pre ++ d :: post) timestamp =
      processExtractedData rulesA (pre ++ d :: post) timestamp ++
        (⟨wn.id, d.name, d.hasRight, timestamp, true⟩ : AnswerStatus) ::
          processExtractedData rulesB (pre ++ d :: post) timestamp := by
  simp only [processExtractedData, List.filterMap_append, List.filterMap_cons]
  have hf := find?_append_cons (fun x => checkNameMatch x.name wn) pre d post hpre hd
  simp [hen, hf]

/-- Witness for claim C4: the rule matches the second of three entries and
also the third; the produced record is built from the second. -/
theorem claim_C4_witness :
    checkNameMatch "Taro".data (⟨"1".data, "Taro".data, true, true⟩ : WatchedName) = true ∧
    processExtractedData [(⟨"1".data, "Taro".data, true, true⟩ : WatchedName)]
        ([⟨"Hanako".data, false, 0⟩] ++ (⟨"Taro".data, true, 0⟩ : AnswerRightData) ::
          [⟨"Taro".data, false, 0⟩]) 7 =
      processExtractedData []
          ([⟨"Hanako".data, false, 0⟩] ++ (⟨"Taro".data, true, 0⟩ : AnswerRightData) ::
            [⟨"Taro".data, false, 0⟩]) 7 ++
        (⟨"1".data, "Taro".data, true, 7, true⟩ : AnswerStatus) ::
          processExtractedData []
            ([⟨"Hanako".data, false, 0⟩] ++ (⟨"Taro".data, true, 0⟩ : AnswerRightData) ::
              [⟨"Taro".data, false, 0⟩]) 7 :=
  ⟨by decide,
    claim_C4 [] (⟨"1".data, "Taro".data, true, true⟩ : WatchedName) []
      [⟨"Hanako".data, false, 0⟩] (⟨"Taro".data, true, 0⟩ : AnswerRightData)
      [⟨"Taro".data, false, 0⟩] 7 rfl (by decide) (by decide)⟩

/-! ### Claim C3 -/

/-- Claim C3 fails as stated: an enabled substring rule whose name (a single
space) trims to the empty string matches the observed name `Taro`, because
the lowercased empty needle occurs in every string. -/
theorem claim_C3_counterexample :
    trimChars " ".data = [] ∧
    checkNameMatch "Taro".data (⟨"1".data, " ".data, false, true⟩ : WatchedName) = true := by
  decide

/-- Claim C3 (amended): `checkNameMatch` has no guard for names that trim to
the empty string.  For an enabled rule whose name trims to empty, the match
succeeds vacuously on every observed name in substring mode, and in exact
mode exactly on the observed names that also trim to empty. -/
theorem claim_C3 (observedName : List Char) (wn : WatchedName) (hen : wn.enabled = true)
    (hempty : trimChars wn.name = []) :
    checkNameMatch observedName wn = (!wn.exactMatch || (trimChars observedName).isEmpty) := by
  rw [checkNameMatch, hen]
  simp only [Bool.not_true, Bool.false_eq_true, if_false]
  rw [hempty]
  cases hex : wn.exactMatch
  · simp only [Bool.false_eq_true, if_false, Bool.not_false, Bool.true_or]
    exact strIncludes_nil _
  · simp only [if_true, Bool.not_true, Bool.false_or]
    cases hnm : trimChars observedName <;> simp

/-- Witness for claim C3 at an enabled whitespace-named substring rule. -/
theorem claim_C3_witness :
    (⟨"2".data, "  ".data, false, true⟩ : WatchedName).enabled = true ∧
    trimChars "  ".data = [] ∧
    checkNameMatch "Hanako".data (⟨"2".data, "  ".data, false, true⟩ : WatchedName) =
      (!(⟨"2".data, "  ".data, false, true⟩ : WatchedName).exactMatch ||
        (trimChars "Hanako".data).isEmpty) :=
  ⟨rfl, by decide,
    claim_C3 "Hanako".data (⟨"2".data, "  ".data, false, true⟩ : WatchedName) rfl (by decide)⟩

/-! ### Claim C5 -/

/-- Claim C5 fails as stated: the input `xrgb(250,250,250)y` does not parse
as an `rgb(r,g,b)` textual form (it has surrounding text) and is neither
`white` nor `rgb(255, 255, 255)`, so the claim's contract — `classifySpec`,
modelled from its words — answers false; yet the classifier answers true,
because its pattern is unanchored. -/
theorem claim_C5_counterexample :
    isWhiteBackground "xrgb(250,250,250)y".data = true ∧
    classifySpec "xrgb(250,250,250)y".data = false := by
  decide

/-- Claim C5 (amended): the classifier returns true iff the leftmost
occurrence of the pattern `rgb(` digits `,` spaces digits `,` spaces digits
`)` inside the input has all three captured channels at least 240, or no
such occurrence exists and the input is exactly `white` or exactly
`rgb(255, 255, 255)`; for any other input it returns false, and it is a
total function (it never throws). -/
theorem claim_C5 (s : List Char) :
    isWhiteBackground s = true ↔
      ((∃ r g b, findRgbMatch s = some (r, g, b) ∧ 240 ≤ r ∧ 240 ≤ g ∧ 240 ≤ b) ∨
        (findRgbMatch s = none ∧ (s = whiteLiteral ∨ s = rgbWhiteLiteral))) := by
  cases hm : findRgbMatch s with
  | none =>
    rw [isWhiteBackground, hm]
    simp [beq_iff_eq]
  | some v =>
    obtain ⟨r, g, b⟩ := v
    rw [isWhiteBackground, hm]
    constructor
    · intro h
      simp only [Bool.and_eq_true, decide_eq_true_eq] at h
      exact Or.inl ⟨r, g, b, rfl, h.1.1, h.1.2, h.2⟩
    · rintro (⟨rr, gg, bb, heq, hr, hg, hb⟩ | ⟨hnone, _⟩)
      · injection heq with heq'
        simp only [Prod.mk.injEq] at heq'
        obtain ⟨rfl, rfl, rfl⟩ := heq'
        simp [hr, hg, hb]
      · cases hnone

/-! ### Claim C6 -/

/-- Claim C6: extraction is a total function of the DOM state (it never
throws); when the empty-state marker is present or the rows table is absent
it returns the empty list, and a failing row — one whose processing throws,
or whose name element is missing or empty after trimming so that
`extractSingleElement` yields nothing — is skipped by both strategies
without affecting the entries gathered from the other rows. -/
theorem claim_C6 :
    (∀ (watchedNames : List WatchedName) (dom : DomState) (timestamp : Nat)
        (cache : MonitorCache), dom.hasEmptyState = true →
        (extractAnswerRights watchedNames dom timestamp cache).1 = []) ∧
    (∀ (watchedNames : List WatchedName) (dom : DomState) (timestamp : Nat)
        (cache : MonitorCache), dom.rightsTable = none →
        (extractAnswerRights watchedNames dom timestamp cache).1 = []) ∧
    (∀ (rowsA : List DomRow) (bad : DomRow) (rowsB : List DomRow) (timestamp : Nat),
        bad.throwsOnProcess = true ∨ extractSingleElement bad timestamp = none →
        extractWithNormalSearch (rowsA ++ bad :: rowsB) timestamp =
          extractWithNormalSearch rowsA timestamp ++ extractWithNormalSearch rowsB timestamp) ∧
    (∀ (watchedNames : List WatchedName) (rowsA : List DomRow) (bad : DomRow)
        (rowsB : List DomRow) (timestamp : Nat),
        bad.throwsOnProcess = true ∨ extractSingleElement bad timestamp = none →
        extractWithEfficientSearch watchedNames (rowsA ++ bad :: rowsB) timestamp =
          extractWithEfficientSearch watchedNames rowsA timestamp ++
            extractWithEfficientSearch watchedNames rowsB timestamp) := by
  refine ⟨?_, ?_, ?_, ?_⟩
  · intro watchedNames dom timestamp cache hes
    cases hth : dom.topLevelThrows <;> simp [extractAnswerRights, hth, hes]
  · intro watchedNames dom timestamp cache htab
    cases hth : dom.topLevelThrows
    · cases hes : dom.hasEmptyState <;> simp [extractAnswerRights, hth, hes, htab]
    · simp [extractAnswerRights, hth]
  · intro rowsA bad rowsB timestamp hbad
    have hnone : (if bad.throwsOnProcess then none
        else extractSingleElement bad timestamp) = none := by
      rcases hbad with h | h
      · simp [h]
      · cases hb : bad.throwsOnProcess <;> simp [hb, h]
    simp only [extractWithNormalSearch, List.filterMap_append, List.filterMap_cons, hnone]
  · intro watchedNames rowsA bad rowsB timestamp hbad
    by_cases hlen : watchedNames.length = 0
    · simp [extractWithEfficientSearch, hlen]
    · have hnone : (if bad.throwsOnProcess then none
          else match bad.nameText with
            | none => none
            | some t =>
              if (trimChars t).isEmpty then none
              else if isNameMatchedEfficient (trimChars t) (buildExactMatchSet watchedNames)
                  (buildSubstrMatchNames watchedNames) then
                extractSingleElement bad timestamp
              else none) = none := by
        rcases hbad with h | h
        · simp [h]
        · cases hb : bad.throwsOnProcess
          · cases hnt : bad.nameText with
            | none => simp [hb]
            | some t =>
              simp only [extractSingleElement, hnt, hb, Bool.false_eq_true, if_false] at h ⊢
              by_cases hemp : (trimChars t).isEmpty
              · simp [hemp]
              · rw [if_neg hemp] at h
                cases h
          · simp [hb]
      simp only [extractWithEfficientSearch, if_neg hlen, List.filterMap_append,
        List.filterMap_cons]
      rw [hnone]

/-- Witness for claim C6: the empty-state short-circuit at a concrete DOM
state, and a malformed middle row (missing name element) skipped between two
valid rows. -/
theorem claim_C6_witness :
    (⟨true, none, false⟩ : DomState).hasEmptyState = true ∧
    (extractAnswerRights [] ⟨true, none, false⟩ 0 ⟨[], 0⟩).1 = [] ∧
    extractSingleElement ⟨none, "white".data, false⟩ 0 = none ∧
    extractWithNormalSearch
        ([⟨some "A".data, "white".data, false⟩] ++ (⟨none, "white".data, false⟩ : DomRow) ::
          [⟨some "B".data, "gray".data, false⟩]) 0 =
      extractWithNormalSearch [⟨some "A".data, "white".data, false⟩] 0 ++
        extractWithNormalSearch [⟨some "B".data, "gray".data, false⟩] 0 :=
  ⟨rfl, claim_C6.1 [] ⟨true, none, false⟩ 0 ⟨[], 0⟩ rfl, by decide,
    claim_C6.2.2.1 [⟨some "A".data, "white".data, false⟩] (⟨none, "white".data, false⟩ : DomRow)
      [⟨some "B".data, "gray".data, false⟩] 0 (Or.inr (by decide))⟩

/-! ### Claim C7 -/

/-- Claim C7: when the top-level DOM query throws during extraction, the
scan emits the distinguishable scan-level error signal (an `ERROR` message
with the DOM-extraction category, which a failure-free scan never emits) and
the engine's monitoring flag stays on, leaving it eligible for the next
triggered scan. -/
theorem claim_C7 (watchedNames : List WatchedName) (dom : DomState) (timestamp : Nat)
    (st : ScanState) (hmon : st.isMonitoring = true) (hthrow : dom.topLevelThrows = true) :
    (performScan watchedNames dom timestamp st).1.isMonitoring = true ∧
    Emitted.errorMessage domExtractionErrorCategory ∈
      (performScan watchedNames dom timestamp st).2 ∧
    (∀ (watchedNamesB : List WatchedName) (domB : DomState) (timestampB : Nat)
        (stB : ScanState), domB.topLevelThrows = false →
        (∀ rows, domB.rightsTable = some rows → ∀ row ∈ rows, row.throwsOnProcess = false) →
        ∀ category, Emitted.errorMessage category ∉
          (performScan watchedNamesB domB timestampB stB).2) := by
  have hcrit : isCriticalError domExtractionErrorCategory = false := by decide
  refine ⟨?_, ?_, ?_⟩
  · simp [performScan, hmon, extractionErrorCategories, hthrow, handleErrorMonitoring, hcrit]
  · simp [performScan, hmon, extractionErrorCategories, hthrow]
  · intro wnsB domB tsB stB hthr hclean category
    cases hmonB : stB.isMonitoring
    · simp [performScan, hmonB]
    · have hcats : extractionErrorCategories domB = [] := by
        rw [extractionErrorCategories, if_neg (by simp [hthr])]
        cases hes : domB.hasEmptyState
        · simp only [Bool.false_eq_true, if_false]
          cases htab : domB.rightsTable with
          | none => rfl
          | some rows =>
            by_cases hlen : EFFICIENT_SEARCH_THRESHOLD < rows.length
            · simp [hlen]
            · simp only [hlen, if_false]
              rw [List.filterMap_eq_nil_iff]
              intro row hrow
              simp [hclean rows htab row hrow]
        · simp
      simp [performScan, hmonB, hcats]

/-- Witness for claim C7 at a concrete failing DOM state and live engine. -/
theorem claim_C7_witness :
    (⟨true, ⟨[], 0⟩⟩ : ScanState).isMonitoring = true ∧
    (⟨false, none, true⟩ : DomState).topLevelThrows = true ∧
    (performScan [] ⟨false, none, true⟩ 0 ⟨true, ⟨[], 0⟩⟩).1.isMonitoring = true ∧
    Emitted.errorMessage domExtractionErrorCategory ∈
      (performScan [] ⟨false, none, true⟩ 0 ⟨true, ⟨[], 0⟩⟩).2 :=
  ⟨rfl, rfl,
    (claim_C7 [] ⟨false, none, true⟩ 0 ⟨true, ⟨[], 0⟩⟩ rfl rfl).1,
    (claim_C7 [] ⟨false, none, true⟩ 0 ⟨true, ⟨[], 0⟩⟩ rfl rfl).2.1⟩

/-! ### Claim C8 -/

/-- One relevant batch from a reachable scheduler state leaves exactly the
fresh timer armed and tracked, preserves the scan count, and stays in the
reachable states. -/
theorem onRelevantBatch_spec (s : SchedState) (h : SchedInv s) :
    (onRelevantBatch s).armed = [s.nextId] ∧
    (onRelevantBatch s).throttleTimer = some s.nextId ∧
    (onRelevantBatch s).scanCount = s.scanCount ∧ SchedInv (onRelevantBatch s) := by
  rcases h with h | ⟨t, ht, htt⟩
  · cases htt : s.throttleTimer <;>
      exact ⟨by simp [onRelevantBatch, clearTracked, h, htt], rfl, rfl,
        Or.inr ⟨s.nextId, by simp [onRelevantBatch, clearTracked, h, htt], rfl⟩⟩
  · exact ⟨by simp [onRelevantBatch, clearTracked, ht, htt], rfl, rfl,
      Or.inr ⟨s.nextId, by simp [onRelevantBatch, clearTracked, ht, htt], rfl⟩⟩

/-- Running batches keeps the scheduler in the reachable states, leaves the
scan count untouched, and — once at least one batch has arrived — leaves
exactly the tracked timer armed. -/
theorem runBatches_spec (n : Nat) :
    ∀ s : SchedState, SchedInv s →
      SchedInv (runBatches n s) ∧ (runBatches n s).scanCount = s.scanCount ∧
      (1 ≤ n → ∃ t, (runBatches n s).armed = [t] ∧
        (runBatches n s).throttleTimer = some t) := by
  induction n with
  | zero =>
    intro s h
    exact ⟨h, rfl, fun h1 => absurd h1 (by omega)⟩
  | succ k ih =>
    intro s h
    obtain ⟨ha, htt, hsc, hinv⟩ := onRelevantBatch_spec s h
    obtain ⟨ih1, ih2, ih3⟩ := ih (onRelevantBatch s) hinv
    refine ⟨ih1, by rw [show runBatches (k + 1) s = runBatches k (onRelevantBatch s) from rfl,
      ih2, hsc], ?_⟩
    intro _
    cases k with
    | zero => exact ⟨s.nextId, ha, htt⟩
    | succ m => exact ih3 (by omega)

/-- Reachable scheduler states have at most one armed timer. -/
theorem schedInv_length {s : SchedState} (h : SchedInv s) : s.armed.length ≤ 1 := by
  rcases h with h | ⟨t, ht, _⟩
  · simp [h]
  · simp [ht]

/-- Claim C8: starting from any reachable scheduler state, a burst of
`n ≥ 1` relevant mutation batches arriving before the debounce timer fires
keeps at most one timer armed at every point, and when the surviving timer
then fires, exactly one rescan runs — the scan count rises by exactly one
and no armed timer is left. -/
theorem claim_C8 (s : SchedState) (n : Nat) (hinv : SchedInv s) (hn : 1 ≤ n) :
    (∀ k, k ≤ n → (runBatches k s).armed.length ≤ 1) ∧
    ∃ t, (runBatches n s).armed = [t] ∧
      (onTimerFire (runBatches n s) t).scanCount = s.scanCount + 1 ∧
      (onTimerFire (runBatches n s) t).armed = [] := by
  constructor
  · intro k _
    exact schedInv_length (runBatches_spec k s hinv).1
  · obtain ⟨t, ht, _⟩ := (runBatches_spec n s hinv).2.2 hn
    have hsc := (runBatches_spec n s hinv).2.1
    refine ⟨t, ht, ?_, ?_⟩
    · rw [onTimerFire, if_pos (by simp [ht])]
      simp [hsc]
    · rw [onTimerFire, if_pos (by simp [ht])]
      simp [ht]

/-- Witness for claim C8: three batches from the initial scheduler state. -/
theorem claim_C8_witness :
    SchedInv ⟨[], none, 0, 0⟩ ∧ 1 ≤ 3 ∧
    (runBatches 2 ⟨[], none, 0, 0⟩).armed.length ≤ 1 :=
  ⟨Or.inl rfl, by omega,
    (claim_C8 ⟨[], none, 0, 0⟩ 3 (Or.inl rfl) (by omega)).1 2 (by omega)⟩

/-! ### Claim C9 -/

/-- Claim C9 fails as stated: one completed extraction pass over eleven
valid rows stores all eleven entries in the cache, exceeding the fixed cap
of `MAX_SCAN_HISTORY = 10` — the cap is not enforced at that point. -/
theorem claim_C9_counterexample :
    MAX_SCAN_HISTORY <
      (extractAnswerRights []
        ⟨false, some (List.replicate 11 ⟨some "a".data, "white".data, false⟩), false⟩ 0
        ⟨[], 0⟩).2.lastScanResults.length := by
  decide

/-- Claim C9 (amended): the ten-entry cap on the cached scan results is
enforced only by the periodic memory cleanup, not at every point of
execution: `performMemoryCleanup` always leaves at most `MAX_SCAN_HISTORY`
cached entries and keeps a suffix of the cache (the most recent entries,
dropping old ones), while a completed extraction pass over more than ten
rows leaves more than ten entries until that cleanup runs. -/
theorem claim_C9 (cache : MonitorCache) :
    (performMemoryCleanup cache).lastScanResults.length ≤ MAX_SCAN_HISTORY ∧
    List.IsSuffix (performMemoryCleanup cache).lastScanResults cache.lastScanResults := by
  unfold performMemoryCleanup
  constructor
  · dsimp only
    split
    · rw [List.length_drop]
      omega
    · rename_i h
      unfold MAX_SCAN_HISTORY at h ⊢
      omega
  · dsimp only
    split
    · exact List.drop_suffix _ _
    · exact List.suffix_refl _

/-! ### Claim C10 -/

/-- Claim C10 fails as stated: `rgb(0,0,0)rgb(255,255,255)` contains the
substring `rgb(255,255,255)` — all three channels at least 240 — yet the
classifier returns false, because JavaScript `match` uses the leftmost
occurrence, `rgb(0,0,0)`. -/
theorem claim_C10_counterexample :
    strIncludes "rgb(0,0,0)rgb(255,255,255)".data "rgb(255,255,255)".data = true ∧
    isWhiteBackground "rgb(0,0,0)rgb(255,255,255)".data = false := by
  decide

/-- Claim C10 (amended): for every input string whose leftmost occurrence of
the pattern `rgb(` digits `,` spaces digits `,` spaces digits `)` captures
three channels all at least 240 — including values above 255 and arbitrary
surrounding text — the classifier returns true: the pattern is unanchored
and the channels are not range-checked. -/
theorem claim_C10 (s : List Char) (r g b : Nat) (h : findRgbMatch s = some (r, g, b))
    (hr : 240 ≤ r) (hg : 240 ≤ g) (hb : 240 ≤ b) : isWhiteBackground s = true := by
  rw [isWhiteBackground, h]
  simp [hr, hg, hb]

/-- Witness for claim C10 at out-of-range channels and surrounding text. -/
theorem claim_C10_witness :
    findRgbMatch "xrgb(999,999,999)y".data = some (999, 999, 999) ∧ 240 ≤ 999 ∧
    isWhiteBackground "xrgb(999,999,999)y".data = true :=
  ⟨by decide, by omega,
    claim_C10 "xrgb(999,999,999)y".data 999 999 999 (by decide) (by omega) (by omega) (by omega)⟩

end QuaggaModel
